import Mathlib

/-!
# Verification of the ACIP GPU Gateway request-admission core

Shallow embedding of the gateway's rate limiter, response cache, worker
registry, job tracker and request-pipeline orchestrator, translated from the
TypeScript sources:

- `src/plugins/rate-limit-plugin.ts` (`checkRateLimit`)
- `src/plugins/cache-plugin.ts` (`computeCacheKey`, `storeResponse`)
- `src/services/worker-registry.ts` (`refreshWorkers`, `getWorkerList`)
- `src/services/job-tracker.ts` (`getJobStatus`)
- `server.ts` (the `/api/v1` pipeline middleware)

Shared-store (Redis) interactions are modelled by passing the read results in
and returning the written values out; timestamps are integers (milliseconds).
-/

namespace Gateway

/-! ## Rate limiter (`rate-limit-plugin.ts`, `checkRateLimit`, lines 126-158)

The store holds, per client key, a list of admission timestamps
(`gateway:ratelimit:{clientKey}`).  `checkRateLimit` reads it with one `get`,
filters, and either rejects (no write) or appends `now` and writes it back
with one `set`.  The outcome records the value persisted after the call and
whether a `set` was issued. -/

structure RLOutcome where
  allowed : Bool
  remaining : Nat
  resetAt : Int
  store : List Int
  wrote : Bool
  deriving Repr, DecidableEq

/-- Embedding of `checkRateLimit`.  `windowMs` and `maxRequests` are the
plugin config; `now` is `Date.now()`; `stored` is the list read from the
store (`currentData ?? []`).  The source computes
`windowStart = now - windowMs`, keeps `ts > windowStart`, rejects when the
remaining count is `>= maxRequests` (returning `timestamps[0] + windowMs`
as `resetAt`, and issuing no write), otherwise appends `now`, persists, and
returns `remaining = maxRequests - timestamps.length`.  `timestamps[0]` is
only evaluated on the reject path, where the list is nonempty whenever
`maxRequests >= 1`; the `headD 0` default covers the degenerate
`maxRequests = 0` case (JS would produce `NaN` there). -/
def checkRateLimit (windowMs : Int) (maxRequests : Nat) (now : Int)
    (stored : List Int) : RLOutcome :=
  let windowStart := now - windowMs
  let timestamps := stored.filter (fun ts => decide (windowStart < ts))
  if maxRequests ≤ timestamps.length then
    { allowed := false
      remaining := 0
      resetAt := timestamps.headD 0 + windowMs
      store := stored
      wrote := false }
  else
    { allowed := true
      remaining := maxRequests - (timestamps.length + 1)
      resetAt := now + windowMs
      store := timestamps ++ [now]
      wrote := true }

/-- Sequential driver: run `checkRateLimit` over a list of request times,
threading the persisted store, and collect the admitted request times. -/
def rlAdmitted (windowMs : Int) (maxRequests : Nat) (stored : List Int) :
    List Int → List Int
  | [] => []
  | t :: ts =>
    let o := checkRateLimit windowMs maxRequests t stored
    if o.allowed then t :: rlAdmitted windowMs maxRequests o.store ts
    else rlAdmitted windowMs maxRequests o.store ts

/-- Membership of a timestamp in the half-open window `(t, t + windowMs]`. -/
def inWindow (windowMs t a : Int) : Bool :=
  decide (t < a) && decide (a ≤ t + windowMs)

/-- Interleaved execution of two `checkRateLimit` calls for the same client
key under the read-read-write-write schedule: both calls `get` the same
stored value `s0` before either `set` lands.  The source performs the read
and the write as two separate store operations with no transaction, so this
schedule is possible for two concurrent requests; the final persisted value
is the last write issued. -/
def checkRateLimitRace (windowMs : Int) (maxRequests : Nat) (now : Int)
    (s0 : List Int) : RLOutcome × RLOutcome × List Int :=
  let a := checkRateLimit windowMs maxRequests now s0
  let b := checkRateLimit windowMs maxRequests now s0
  (a, b, if b.wrote then b.store else if a.wrote then a.store else s0)

/-- Reject-path equation for `checkRateLimit`: when the in-window count
reaches `maxRequests`, the call rejects and issues no write. -/
theorem checkRateLimit_reject_eq (W : Int) (M : Nat) (now : Int) (stored : List Int)
    (h : M ≤ (stored.filter (fun ts => decide (now - W < ts))).length) :
    checkRateLimit W M now stored =
      { allowed := false, remaining := 0,
        resetAt := (stored.filter (fun ts => decide (now - W < ts))).headD 0 + W,
        store := stored, wrote := false } := by
  simp only [checkRateLimit]
  rw [if_pos h]

/-- Admit-path equation for `checkRateLimit`: below the limit, the call
appends `now` to the filtered list and persists it. -/
theorem checkRateLimit_admit_eq (W : Int) (M : Nat) (now : Int) (stored : List Int)
    (h : (stored.filter (fun ts => decide (now - W < ts))).length < M) :
    checkRateLimit W M now stored =
      { allowed := true,
        remaining := M - ((stored.filter (fun ts => decide (now - W < ts))).length + 1),
        resetAt := now + W,
        store := stored.filter (fun ts => decide (now - W < ts)) ++ [now],
        wrote := true } := by
  simp only [checkRateLimit]
  rw [if_neg (by omega)]

/-- The head of a `≤`-sorted list is a lower bound for its members. -/
theorem sorted_headD_le {l : List Int} (hs : l.Sorted (· ≤ ·)) (d : Int) :
    ∀ a ∈ l, l.headD d ≤ a := by
  cases l with
  | nil => intro a ha; cases ha
  | cons x xs =>
    intro a ha
    rcases List.mem_cons.mp ha with rfl | ha
    · exact le_refl a
    · exact (List.sorted_cons.mp hs).1 a ha

/-- Invariant induction for the sliding-window bound.  `A` is the list of
already-admitted timestamps, `tprev` an upper bound for them and a lower
bound for all remaining request times, `stored` the currently persisted
list.  The two store invariants: every in-window suffix of `A` is (as a
sublist) still present in `stored` for any future cutoff, and every
window already contains at most `M` admitted timestamps. -/
theorem rlAdmitted_window_bound_aux (W : Int) (M : Nat) :
    ∀ (times stored A : List Int) (tprev : Int),
      List.Chain (· ≤ ·) tprev times →
      (∀ a ∈ A, a ≤ tprev) →
      (∀ n : Int, tprev ≤ n →
        List.Sublist (A.filter (fun a => decide (n - W < a)))
          (stored.filter (fun a => decide (n - W < a)))) →
      (∀ t : Int, ((A.filter (inWindow W t)).length ≤ M)) →
      ∀ t : Int,
        (((A ++ rlAdmitted W M stored times).filter (inWindow W t)).length ≤ M) := by
  intro times
  induction times with
  | nil =>
    intro stored A tprev _ _ _ hbound t
    simpa [rlAdmitted] using hbound t
  | cons now ts ih =>
    intro stored A tprev hchain hA hsub hbound t
    have h1 : tprev ≤ now := (List.chain_cons.mp hchain).1
    have h2 : List.Chain (· ≤ ·) now ts := (List.chain_cons.mp hchain).2
    by_cases hc : M ≤ (stored.filter (fun a => decide (now - W < a))).length
    · -- request at `now` is rejected: store unchanged, nothing admitted
      have hstep := checkRateLimit_reject_eq W M now stored hc
      have hrw : rlAdmitted W M stored (now :: ts) = rlAdmitted W M stored ts := by
        simp [rlAdmitted, hstep]
      rw [hrw]
      exact ih stored A now h2
        (fun a ha => le_trans (hA a ha) h1)
        (fun n hn => hsub n (le_trans h1 hn))
        hbound t
    · -- request at `now` is admitted
      push_neg at hc
      have hstep := checkRateLimit_admit_eq W M now stored hc
      have hrw : rlAdmitted W M stored (now :: ts) =
          now :: rlAdmitted W M
            (stored.filter (fun a => decide (now - W < a)) ++ [now]) ts := by
        simp [rlAdmitted, hstep]
      rw [hrw]
      have hassoc : A ++ now :: rlAdmitted W M
          (stored.filter (fun a => decide (now - W < a)) ++ [now]) ts =
          (A ++ [now]) ++ rlAdmitted W M
            (stored.filter (fun a => decide (now - W < a)) ++ [now]) ts := by
        simp
      rw [hassoc]
      -- the admitted in-window sublist invariant, used twice below
      have hAsub : ∀ n : Int, now ≤ n →
          List.Sublist ((A ++ [now]).filter (fun a => decide (n - W < a)))
            ((stored.filter (fun a => decide (now - W < a)) ++ [now]).filter
              (fun a => decide (n - W < a))) := by
        intro n hn
        rw [List.filter_append, List.filter_append]
        have hff : (stored.filter (fun a => decide (now - W < a))).filter
            (fun a => decide (n - W < a)) =
            stored.filter (fun a => decide (n - W < a)) := by
          rw [List.filter_filter]
          apply List.filter_congr
          intro a _
          by_cases hna : n - W < a
          · have : now - W < a := lt_of_le_of_lt (by omega) hna
            simp [hna, this]
          · simp [hna]
        rw [hff]
        exact List.Sublist.append (hsub n (le_trans h1 hn)) (List.Sublist.refl _)
      apply ih (stored.filter (fun a => decide (now - W < a)) ++ [now]) (A ++ [now]) now h2
      · intro a ha
        rcases List.mem_append.mp ha with ha | ha
        · exact le_trans (hA a ha) h1
        · simp at ha; omega
      · exact hAsub
      · -- every window still holds at most M admitted timestamps
        intro u
        rw [List.filter_append]
        by_cases hwin : inWindow W u now
        · have hl : ([now].filter (inWindow W u)) = [now] := by simp [hwin]
          rw [hl]
          have hwin' : u < now ∧ now ≤ u + W := by
            constructor <;>
              [exact of_decide_eq_true (Bool.and_elim_left hwin);
               exact of_decide_eq_true (Bool.and_elim_right hwin)]
          have hmono : List.Sublist (A.filter (inWindow W u))
              (A.filter (fun a => decide (now - W < a))) := by
            apply List.monotone_filter_right
            intro a hwa
            have h3 : u < a := of_decide_eq_true (Bool.and_elim_left hwa)
            have : now - W < a := by omega
            simpa using this
          have hlen : (A.filter (inWindow W u)).length ≤
              (stored.filter (fun a => decide (now - W < a))).length :=
            le_trans hmono.length_le (hsub now h1).length_le
          have := hc
          simp only [List.length_append, List.length_cons, List.length_nil]
          omega
        · have hl : ([now].filter (inWindow W u)) = [] := by simp [hwin]
          rw [hl, List.append_nil]
          exact hbound u

/-- C1.  Sliding-window admission bound plus the per-call reject/admit
behaviour of `checkRateLimit` (`rate-limit-plugin.ts`, lines 126-158):

1. running any nondecreasing sequence of admission checks from an empty
   store admits at most `maxRequests` requests inside any half-open window
   `(t, t + windowMs]`;
2. when the in-window count (entries `> now - windowMs`; older ones are
   dropped) is `>= maxRequests`, the request is rejected with
   `resetAt = oldestRemainingTimestamp + windowMs` (for a sorted store the
   list head is that oldest entry: it bounds every remaining timestamp);
3. otherwise `now` is appended, the filtered list is persisted, and
   `remaining = maxRequests - newCount` is returned. -/
theorem checkRateLimit_sliding_window (W : Int) (M : Nat) (times : List Int)
    (hmono : List.Chain' (· ≤ ·) times) :
    (∀ t : Int, ((rlAdmitted W M [] times).filter (inWindow W t)).length ≤ M) ∧
    (∀ (now : Int) (stored : List Int), stored.Sorted (· ≤ ·) →
      M ≤ (stored.filter (fun ts => decide (now - W < ts))).length →
      checkRateLimit W M now stored =
        { allowed := false, remaining := 0,
          resetAt := (stored.filter (fun ts => decide (now - W < ts))).headD 0 + W,
          store := stored, wrote := false } ∧
      ∀ a ∈ stored.filter (fun ts => decide (now - W < ts)),
        (stored.filter (fun ts => decide (now - W < ts))).headD 0 ≤ a) ∧
    (∀ (now : Int) (stored : List Int),
      (stored.filter (fun ts => decide (now - W < ts))).length < M →
      checkRateLimit W M now stored =
        { allowed := true,
          remaining := M - ((stored.filter (fun ts => decide (now - W < ts))).length + 1),
          resetAt := now + W,
          store := stored.filter (fun ts => decide (now - W < ts)) ++ [now],
          wrote := true }) := by
  refine ⟨?_, ?_, ?_⟩
  · intro t
    cases times with
    | nil => simp [rlAdmitted]
    | cons t0 ts =>
      have h := rlAdmitted_window_bound_aux W M (t0 :: ts) [] [] t0
        (List.chain_cons.mpr ⟨le_refl t0, hmono⟩)
        (by intro a ha; cases ha)
        (by intro n _; simp)
        (by intro u; simp)
        t
      simpa using h
  · intro now stored hs hcount
    refine ⟨checkRateLimit_reject_eq W M now stored hcount, ?_⟩
    exact sorted_headD_le (hs.filter _) 0
  · intro now stored hcount
    exact checkRateLimit_admit_eq W M now stored hcount

/-- Witness for C1 at the spec's end-to-end example: `windowMs = 60000`,
`maxRequests = 2`, requests at 0ms, 100ms and 200ms.  The first two are
admitted, the third rejected with `resetAt = 60000`. -/
theorem checkRateLimit_sliding_window_witness :
    ((rlAdmitted 60000 2 [] [0, 100, 200]).filter (inWindow 60000 (-1))).length ≤ 2 ∧
    checkRateLimit 60000 2 200 [0, 100] =
      { allowed := false, remaining := 0, resetAt := 60000,
        store := [0, 100], wrote := false } ∧
    checkRateLimit 60000 2 100 [0] =
      { allowed := true, remaining := 0, resetAt := 60100,
        store := [0, 100], wrote := true } := by
  have h := checkRateLimit_sliding_window 60000 2 [0, 100, 200]
    (by norm_num [List.chain'_cons, List.chain'_singleton])
  refine ⟨h.1 (-1), ?_, ?_⟩
  · have h2 := (h.2.1 200 [0, 100] (by decide) (by decide)).1
    simpa using h2
  · have h3 := h.2.2 100 [0] (by decide)
    simpa using h3

/-- C9.  A rejected `checkRateLimit` call issues no store write: the
persisted timestamp list is exactly the one that was read, so rejected
requests consume no quota and do not extend the window
(`rate-limit-plugin.ts`, lines 141-147: the reject branch returns before
the `stateManager.set`). -/
theorem checkRateLimit_reject_no_write (W : Int) (M : Nat) (now : Int)
    (stored : List Int) (h : (checkRateLimit W M now stored).allowed = false) :
    (checkRateLimit W M now stored).wrote = false ∧
    (checkRateLimit W M now stored).store = stored := by
  by_cases hc : M ≤ (stored.filter (fun ts => decide (now - W < ts))).length
  · rw [checkRateLimit_reject_eq W M now stored hc]
    exact ⟨rfl, rfl⟩
  · rw [checkRateLimit_admit_eq W M now stored (by omega)] at h
    cases h

/-- Witness for C9: third request of the spec example is rejected and the
stored list `[0, 100]` is left untouched. -/
theorem checkRateLimit_reject_no_write_witness :
    (checkRateLimit 60000 2 200 [0, 100]).allowed = false ∧
    (checkRateLimit 60000 2 200 [0, 100]).wrote = false ∧
    (checkRateLimit 60000 2 200 [0, 100]).store = [0, 100] := by
  have h := checkRateLimit_reject_no_write 60000 2 200 [0, 100] (by decide)
  exact ⟨by decide, h.1, h.2⟩

/-- C2 (defect witness).  Two concurrent admission checks for the same key
with `maxRequests = 1` and an empty stored window, interleaved as
read-read-write-write, are BOTH admitted, and the final persisted list
holds a single timestamp: the plain `get`-then-`set` in `checkRateLimit`
(`rate-limit-plugin.ts`, lines 133-151) lets both calls observe the same
stale count, exactly the race the specification rules out (its own comment
at line 130 claims a transactional check-and-increment). -/
theorem checkRateLimitRace_both_admitted :
    (checkRateLimitRace 60000 1 0 []).1.allowed = true ∧
    (checkRateLimitRace 60000 1 0 []).2.1.allowed = true ∧
    (checkRateLimitRace 60000 1 0 []).2.2 = [0] := by
  decide

/-! ## Worker registry (`worker-registry.ts`)

`refreshWorkers` (lines 57-123) reads the worker-id index
(`discoverWorkerIds`, lines 126-131: `worker:index`, with `index ?? []`),
then for each id fetches `worker:{id}:status`, updating the in-memory Map
and emitting online/updated events; previously known ids missing from the
index are deleted with an offline event.  The whole body sits in a
`try/catch`: a thrown store read aborts the tick, keeping whatever part of
the snapshot was already mutated and skipping the offline phase.  Store
reads are modelled as inputs: `Except Unit` is a thrown read, `Option` the
possibly-null value. -/

structure WorkerStatus where
  region : String
  status : String
  gpuName : Option String
  deriving Repr, DecidableEq

inductive WorkerEvent where
  | online (workerId region gpu status : String)
  | updated (workerId region gpu status : String)
  | offline (workerId region gpu : String)
  deriving Repr, DecidableEq

/-- The `this.workers` JS Map as an association list with unique keys in
insertion order. -/
abbrev WorkerMap := List (String × WorkerStatus)

/-- Lookup, as JS `Map.get`. -/
def wrLookup (ws : WorkerMap) (k : String) : Option WorkerStatus :=
  (ws.find? (fun p => p.1 == k)).map (·.2)

/-- Insertion, as JS `Map.set`: update in place if present, else append. -/
def wrSet (ws : WorkerMap) (k : String) (v : WorkerStatus) : WorkerMap :=
  if ws.any (fun p => p.1 == k) then
    ws.map (fun p => if p.1 == k then (k, v) else p)
  else ws ++ [(k, v)]

/-- Removal, as JS `Map.delete`. -/
def wrDelete (ws : WorkerMap) (k : String) : WorkerMap :=
  ws.filter (fun p => !(p.1 == k))

/-- The per-id update loop of `refreshWorkers` (lines 66-100).  Returns the
mutated snapshot, the events published, and whether the loop ran to
completion (`false` when a status `get` threw, which propagates to the
surrounding `catch` after the earlier mutations already happened). -/
def refreshLoop (get : String → Except Unit (Option WorkerStatus)) :
    List String → WorkerMap → WorkerMap × List WorkerEvent × Bool
  | [], ws => (ws, [], true)
  | id :: rest, ws =>
    match get id with
    | .error _ => (ws, [], false)
    | .ok none => refreshLoop get rest ws
    | .ok (some st) =>
      let prev := wrLookup ws id
      let evs : List WorkerEvent :=
        match prev with
        | none => [.online id st.region (st.gpuName.getD "unknown") st.status]
        | some p =>
          if p.status = st.status then []
          else [.updated id st.region (st.gpuName.getD "unknown") st.status]
      let r := refreshLoop get rest (wrSet ws id st)
      (r.1, evs ++ r.2.1, r.2.2)

/-- The offline-detection loop of `refreshWorkers` (lines 102-118): for each
stale id, read its record from the live Map (for the event payload, with
`?? 'unknown'` fallbacks), delete it, and emit `worker:offline`. -/
def offlinePhase : List String → WorkerMap → WorkerMap × List WorkerEvent
  | [], ws => (ws, [])
  | id :: rest, ws =>
    let w := wrLookup ws id
    let r := offlinePhase rest (wrDelete ws id)
    (r.1,
     .offline id ((w.map (·.region)).getD "unknown")
       ((w.bind (·.gpuName)).getD "unknown") :: r.2)

/-- Embedding of one `refreshWorkers` tick.  `idx` is the result of the
`worker:index` read (`.error` = the read threw; `.ok none` = key absent,
which the source turns into `[]` via `index ?? []`). -/
def refreshWorkers (idx : Except Unit (Option (List String)))
    (get : String → Except Unit (Option WorkerStatus)) (ws : WorkerMap) :
    WorkerMap × List WorkerEvent :=
  match idx with
  | .error _ => (ws, [])
  | .ok oids =>
    let ids := oids.getD []
    let r := refreshLoop get ids ws
    if r.2.2 then
      let offlineIds := (ws.map (·.1)).filter (fun old => !(ids.contains old))
      let o := offlinePhase offlineIds r.1
      (o.1, r.2.1 ++ o.2)
    else (r.1, r.2.1)

/-- With a status reader that always returns a null record, the update loop
is an identity that completes. -/
theorem refreshLoop_none (ids : List String) (ws : WorkerMap) :
    refreshLoop (fun _ => .ok none) ids ws = (ws, [], true) := by
  induction ids with
  | nil => rfl
  | cons id rest ih => simp [refreshLoop, ih]

/-- `offlinePhase` ignores a map entry whose key it never visits. -/
theorem offlinePhase_skip (p : String × WorkerStatus) :
    ∀ (ks : List String) (rest : WorkerMap), p.1 ∉ ks →
      offlinePhase ks (p :: rest) =
        ((p :: (offlinePhase ks rest).1), (offlinePhase ks rest).2) := by
  intro ks
  induction ks with
  | nil => intro rest _; rfl
  | cons k ks' ih =>
    intro rest hk
    have hne : p.1 ≠ k := fun h => hk (h ▸ List.mem_cons_self k ks')
    have hk' : p.1 ∉ ks' := fun h => hk (List.mem_cons_of_mem k h)
    have hbeq : (p.1 == k) = false := beq_eq_false_iff_ne.mpr hne
    simp only [offlinePhase, wrLookup, wrDelete, List.find?_cons, List.filter_cons,
      hbeq, Bool.not_false, if_true]
    rw [ih (rest.filter (fun q => !(q.1 == k))) hk']

/-- Running `offlinePhase` on exactly the keys failing a keep-predicate `P`
deletes those entries and emits one offline event per deleted entry. -/
theorem offlinePhase_filter (P : String → Bool) :
    ∀ ws : WorkerMap, (ws.map (·.1)).Nodup →
      offlinePhase ((ws.map (·.1)).filter (fun k => !(P k))) ws =
        (ws.filter (fun p => P p.1),
         (ws.filter (fun p => !(P p.1))).map
           (fun p => .offline p.1 p.2.region (p.2.gpuName.getD "unknown"))) := by
  intro ws
  induction ws with
  | nil => intro _; rfl
  | cons p rest ih =>
    intro hnd
    have hp : p.1 ∉ rest.map (·.1) := (List.nodup_cons.mp hnd).1
    have hr : (rest.map (·.1)).Nodup := (List.nodup_cons.mp hnd).2
    by_cases hP : P p.1
    · have hks : ((p :: rest).map (·.1)).filter (fun k => !(P k)) =
          (rest.map (·.1)).filter (fun k => !(P k)) := by
        simp [hP]
      have hmem : p.1 ∉ (rest.map (·.1)).filter (fun k => !(P k)) :=
        fun h => hp (List.mem_of_mem_filter h)
      rw [hks, offlinePhase_skip p _ rest hmem, ih hr]
      simp [hP]
    · have hPf : P p.1 = false := by simpa using hP
      have hks : ((p :: rest).map (·.1)).filter (fun k => !(P k)) =
          p.1 :: (rest.map (·.1)).filter (fun k => !(P k)) := by
        simp [hPf]
      have hdel : wrDelete (p :: rest) p.1 = rest := by
        have : rest.filter (fun q => !(q.1 == p.1)) = rest := by
          apply List.filter_eq_self.mpr
          intro q hq
          have : q.1 ≠ p.1 := by
            intro h
            exact hp (h ▸ List.mem_map_of_mem (·.1) hq)
          simpa using this
        simp [wrDelete, this]
      have hlook : wrLookup (p :: rest) p.1 = some p.2 := by
        simp [wrLookup, List.find?_cons]
      rw [hks]
      simp only [offlinePhase, hlook, hdel, ih hr]
      simp [hPf]

/-- C3 counterexample.  A tick whose index read succeeds with an absent
(`null`) index is NOT a no-op: with one previously known worker the
snapshot is emptied and a `worker:offline` event is emitted
(`worker-registry.ts` line 130 turns the absent index into `[]`, and lines
102-118 then treat every known worker as gone). -/
theorem refreshWorkers_empty_index_not_noop :
    refreshWorkers (.ok none) (fun _ => .ok none)
        [("worker-a", ⟨"us-west", "idle", none⟩)] =
      ([], [.offline "worker-a" "us-west" "unknown"]) ∧
    ([("worker-a", (⟨"us-west", "idle", none⟩ : WorkerStatus))] : WorkerMap) ≠ [] := by
  exact ⟨rfl, by simp⟩

/-- C3 (amended).  A tick whose index read THROWS is a no-op (snapshot
unchanged, no events emitted); but a tick whose index read succeeds with an
absent or empty index removes every previously known worker and emits one
`worker:offline` event per worker. -/
theorem refreshWorkers_error_noop_empty_removes_all :
    (∀ (get : String → Except Unit (Option WorkerStatus)) (ws : WorkerMap),
      refreshWorkers (.error ()) get ws = (ws, [])) ∧
    (∀ (get : String → Except Unit (Option WorkerStatus)) (ws : WorkerMap),
      (ws.map (·.1)).Nodup →
      refreshWorkers (.ok none) get ws =
        ([], ws.map (fun p => .offline p.1 p.2.region (p.2.gpuName.getD "unknown")))) := by
  constructor
  · intro get ws; rfl
  · intro get ws hnd
    have h := offlinePhase_filter (fun _ => false) ws hnd
    simp only [Bool.not_false, List.filter_true, List.filter_false] at h
    simp [refreshWorkers, refreshLoop, h]

/-- Witness for C3 (amended): one thrown tick keeps a one-worker snapshot,
and one absent-index tick clears it with an offline event. -/
theorem refreshWorkers_error_noop_empty_removes_all_witness :
    refreshWorkers (.error ()) (fun _ => .ok none)
        [("worker-a", ⟨"us-west", "idle", none⟩)] =
      ([("worker-a", ⟨"us-west", "idle", none⟩)], []) ∧
    refreshWorkers (.ok none) (fun _ => .ok none)
        [("worker-a", ⟨"us-west", "idle", some "A100"⟩)] =
      ([], [.offline "worker-a" "us-west" "A100"]) := by
  constructor
  · exact refreshWorkers_error_noop_empty_removes_all.1 _ _
  · exact refreshWorkers_error_noop_empty_removes_all.2 _ _ (by simp)

/-- C4 counterexample.  A worker (`worker-b`) absent from a SINGLE
successful index read is removed at once and `worker:offline` is emitted on
that same tick — no second consecutive absent pass is required. -/
theorem refreshWorkers_offline_after_one_absent_pass :
    refreshWorkers (.ok (some ["worker-a"])) (fun _ => .ok none)
        [("worker-a", ⟨"us-west", "idle", none⟩),
         ("worker-b", ⟨"eu-central", "busy", some "H100"⟩)] =
      ([("worker-a", ⟨"us-west", "idle", none⟩)],
       [.offline "worker-b" "eu-central" "H100"]) := by
  rfl

/-- C4 (amended).  On a successful refresh tick (here with null status
records, which leave existing entries untouched), every previously known
worker whose id is missing from the index list is removed from the snapshot
and gets a `worker:offline` event — absence from one single index read
suffices. -/
theorem refreshWorkers_single_absence_removes (ids : List String) (ws : WorkerMap)
    (hnd : (ws.map (·.1)).Nodup) :
    refreshWorkers (.ok (some ids)) (fun _ => .ok none) ws =
      (ws.filter (fun p => ids.contains p.1),
       (ws.filter (fun p => !(ids.contains p.1))).map
         (fun p => .offline p.1 p.2.region (p.2.gpuName.getD "unknown"))) := by
  have h := offlinePhase_filter (fun k => decide (k ∈ ids)) ws hnd
  simp [refreshWorkers, refreshLoop_none, h]

/-- Witness for C4 (amended): index `[A, B]` then `[A]` — worker `B` is
dropped with an offline event on the very tick it goes missing. -/
theorem refreshWorkers_single_absence_removes_witness :
    refreshWorkers (.ok (some ["worker-a"])) (fun _ => .ok none)
        [("worker-a", ⟨"us-west", "idle", none⟩),
         ("worker-b", ⟨"eu-central", "idle", none⟩)] =
      ([("worker-a", ⟨"us-west", "idle", none⟩)],
       [.offline "worker-b" "eu-central" "unknown"]) := by
  have h := refreshWorkers_single_absence_removes ["worker-a"]
    [("worker-a", ⟨"us-west", "idle", none⟩),
     ("worker-b", ⟨"eu-central", "idle", none⟩)] (by simp)
  simpa using h

/-! ## `getWorkerList` (`worker-registry.ts`, lines 134-156) -/

structure WorkerListResponse where
  workers : List WorkerStatus
  total : Nat
  online : Nat
  busy : Nat
  idle : Nat
  deriving Repr, DecidableEq

/-- Embedding of `getWorkerList`.  The two filters follow JS truthiness on
`filters?.region` / `filters?.status`: an undefined or empty-string filter
is skipped.  All four counters are computed from the filtered array. -/
def getWorkerList (workers : List WorkerStatus) (regionF statusF : Option String) :
    WorkerListResponse :=
  let l1 := match regionF with
    | some r => if r = "" then workers else workers.filter (fun w => w.region == r)
    | none => workers
  let l2 := match statusF with
    | some s => if s = "" then l1 else l1.filter (fun w => w.status == s)
    | none => l1
  { workers := l2
    total := l2.length
    online := (l2.filter (fun w => !(w.status == "offline"))).length
    busy := (l2.filter (fun w => w.status == "busy")).length
    idle := (l2.filter (fun w => w.status == "idle")).length }

/-- C10.  All counters of `getWorkerList` are computed over the filtered
list: `total` is the length of the returned array, and `online`, `busy`,
`idle` count only workers passing the region/status filters; in particular
a `status = "busy"` filter forces `idle = 0`. -/
theorem getWorkerList_counts (workers : List WorkerStatus) (rf sf : Option String) :
    (getWorkerList workers rf sf).total = (getWorkerList workers rf sf).workers.length ∧
    (getWorkerList workers rf sf).online =
      ((getWorkerList workers rf sf).workers.filter
        (fun w => !(w.status == "offline"))).length ∧
    (getWorkerList workers rf sf).busy =
      ((getWorkerList workers rf sf).workers.filter (fun w => w.status == "busy")).length ∧
    (getWorkerList workers rf sf).idle =
      ((getWorkerList workers rf sf).workers.filter (fun w => w.status == "idle")).length ∧
    (sf = some "busy" → (getWorkerList workers rf sf).idle = 0) := by
  refine ⟨rfl, rfl, rfl, rfl, ?_⟩
  rintro rfl
  simp only [getWorkerList, if_neg (by decide : ¬("busy" : String) = ""),
    List.filter_filter, List.length_eq_zero]
  apply List.filter_eq_nil_iff.mpr
  intro w hw
  by_cases hb : w.status = "busy" <;> simp [hb, beq_iff_eq]

/-- Witness for C10: a mixed busy/idle pool filtered by `status = "busy"`
reports `total = 1` and `idle = 0`. -/
theorem getWorkerList_counts_witness :
    (getWorkerList
        [⟨"us-west", "busy", none⟩, ⟨"us-west", "idle", none⟩]
        none (some "busy")).total = 1 ∧
    (getWorkerList
        [⟨"us-west", "busy", none⟩, ⟨"us-west", "idle", none⟩]
        none (some "busy")).idle = 0 := by
  have h := getWorkerList_counts
    [⟨"us-west", "busy", none⟩, ⟨"us-west", "idle", none⟩] none (some "busy")
  exact ⟨by decide, h.2.2.2.2 rfl⟩

/-! ## Job tracker (`job-tracker.ts`, `getJobStatus`, lines 43-69)

The Redis record `queue:job:{jobId}` is modelled as the `fetch` input
(`.error` = the read threw, caught by the source and answered with the
cached value).  ISO date strings are modelled as epoch milliseconds; the
`new Date(...).getTime()` conversion is the external date parser. -/

structure JobStatus where
  job_id : String
  status : String
  model_name : String
  worker_id : Option String
  created_at : Int
  completed_at : Option Int
  deriving Repr, DecidableEq

structure JobEvent where
  name : String
  jobId : String
  status : String
  duration : Option Int
  deriving Repr, DecidableEq

/-- Embedding of `publishStatusChange` (lines 72-97): event name chosen by
the new status, duration `completedAt - createdAt` when `completed_at` is
present. -/
def publishStatusChange (job : JobStatus) : JobEvent :=
  { name :=
      if job.status = "completed" then "gateway:job:completed"
      else if job.status = "failed" then "gateway:job:failed"
      else "gateway:job:submitted"
    jobId := job.job_id
    status := job.status
    duration := job.completed_at.map (fun c => c - job.created_at) }

structure JobLookupResult where
  result : Option JobStatus
  cache : Option JobStatus
  events : List JobEvent
  fetched : Bool
  deriving Repr, DecidableEq

/-- The cache short-circuit test of `getJobStatus` (line 46):
`cached && (cached.status === 'completed' || cached.status === 'failed')`. -/
def jobCacheHit (cached : Option JobStatus) : Bool :=
  (cached.map (fun c => c.status == "completed" || c.status == "failed")).getD false

/-- Embedding of `getJobStatus`.  `cached` is `this.jobs.get(jobId)`;
`fetch` the Redis read.  `fetched` records whether that read was issued. -/
def getJobStatus (cached : Option JobStatus) (fetch : Except Unit (Option JobStatus)) :
    JobLookupResult :=
  if jobCacheHit cached then
    { result := cached, cache := cached, events := [], fetched := false }
  else
    match fetch with
    | .error _ => { result := cached, cache := cached, events := [], fetched := true }
    | .ok none => { result := cached, cache := cached, events := [], fetched := true }
    | .ok (some st) =>
      { result := some st
        cache := some st
        events :=
          match cached.map (·.status) with
          | some p => if p = st.status then [] else [publishStatusChange st]
          | none => []
        fetched := true }

/-- C5 counterexample.  `cancelled` is a terminal state by the glossary,
but a cached cancelled record does NOT short-circuit: `getJobStatus`
still issues a shared-store read (line 46 tests only
`completed`/`failed`). -/
theorem getJobStatus_cancelled_refetches :
    (getJobStatus (some ⟨"job-1", "cancelled", "llama-7b", none, 0, some 5⟩)
      (.ok (some ⟨"job-1", "cancelled", "llama-7b", none, 0, some 5⟩))).fetched
      = true := by
  rfl

/-- C5 (amended).  A cached record in status `completed` or `failed` is
returned as-is with no store read; a cached `cancelled` record always
triggers a store read. -/
theorem getJobStatus_terminal_cache (j : JobStatus)
    (fetch : Except Unit (Option JobStatus)) :
    (j.status = "completed" ∨ j.status = "failed" →
      getJobStatus (some j) fetch =
        { result := some j, cache := some j, events := [], fetched := false }) ∧
    (j.status = "cancelled" → (getJobStatus (some j) fetch).fetched = true) := by
  constructor
  · intro h
    have hb : jobCacheHit (some j) = true := by
      rcases h with h | h <;> simp [jobCacheHit, h]
    simp [getJobStatus, hb]
  · intro h
    have hb : jobCacheHit (some j) = false := by
      simp [jobCacheHit, h]
    simp only [getJobStatus, hb, Bool.false_eq_true, if_false]
    cases fetch with
    | error e => rfl
    | ok o => cases o <;> rfl

/-- Witness for C5 (amended): a completed job is served from cache with no
fetch; a cancelled one is re-fetched. -/
theorem getJobStatus_terminal_cache_witness :
    getJobStatus (some ⟨"job-2", "completed", "llama-7b", some "w1", 0, some 9⟩)
        (.error ()) =
      { result := some ⟨"job-2", "completed", "llama-7b", some "w1", 0, some 9⟩,
        cache := some ⟨"job-2", "completed", "llama-7b", some "w1", 0, some 9⟩,
        events := [], fetched := false } ∧
    (getJobStatus (some ⟨"job-3", "cancelled", "llama-7b", none, 0, none⟩)
        (.ok none)).fetched = true := by
  constructor
  · exact (getJobStatus_terminal_cache _ _).1 (Or.inl rfl)
  · exact (getJobStatus_terminal_cache _ _).2 rfl

/-! ## Response cache (`cache-plugin.ts`)

`computeCacheKey` (lines 142-150) hashes
`method + ":" + path + "?" + sortedQueryString` with MD5 and prefixes
`gateway:cache:`.  The MD5 hex digest is an external library call
(`crypto.createHash`), modelled as an opaque function argument `md5hex`;
everything the gateway computes itself — the raw pre-hash string — is
embedded exactly. -/

/-- The sorted query string: `Object.keys(query).sort()` then
`k=v` pairs joined with `&`.  A query object is an association list with
unique keys. -/
def sortedQueryString (query : List (String × String)) : String :=
  String.intercalate "&"
    ((List.insertionSort (· ≤ ·) (query.map (·.1))).map
      (fun k => k ++ "=" ++ (((query.find? (fun p => p.1 == k)).map (·.2)).getD "")))

/-- The raw string `${method}:${path}?${sortedQuery}` fed to MD5. -/
def cacheKeyRaw (method path : String) (query : List (String × String)) : String :=
  method ++ ":" ++ path ++ "?" ++ sortedQueryString query

/-- Embedding of `computeCacheKey`: `gateway:cache:` + MD5 hex of the raw
string. -/
def computeCacheKey (md5hex : String → String) (method path : String)
    (query : List (String × String)) : String :=
  "gateway:cache:" ++ md5hex (cacheKeyRaw method path query)

/-- On association lists with unique keys, `find?` by key is invariant
under permutation. -/
theorem find?_key_eq_of_perm {q1 q2 : List (String × String)} (hperm : q1.Perm q2)
    (hnd : (q1.map (·.1)).Nodup) (k : String) :
    q1.find? (fun p => p.1 == k) = q2.find? (fun p => p.1 == k) := by
  by_cases hex : ∃ p ∈ q1, (p.1 == k) = true
  · obtain ⟨x1, hx1⟩ := Option.isSome_iff_exists.mp (List.find?_isSome.mpr hex)
    have hex2 : ∃ p ∈ q2, (p.1 == k) = true := by
      obtain ⟨p, hp, hpk⟩ := hex
      exact ⟨p, hperm.mem_iff.mp hp, hpk⟩
    obtain ⟨x2, hx2⟩ := Option.isSome_iff_exists.mp (List.find?_isSome.mpr hex2)
    have m1 : x1 ∈ q1 := List.mem_of_find?_eq_some hx1
    have m2 : x2 ∈ q1 := hperm.mem_iff.mpr (List.mem_of_find?_eq_some hx2)
    have k1 : x1.1 = k := by simpa using List.find?_some hx1
    have k2 : x2.1 = k := by simpa using List.find?_some hx2
    have hx : x1 = x2 := List.inj_on_of_nodup_map hnd m1 m2 (by rw [k1, k2])
    rw [hx1, hx2, hx]
  · push_neg at hex
    have hex2 : ∀ p ∈ q2, ¬((p.1 == k) = true) := fun p hp =>
      hex p (hperm.mem_iff.mpr hp)
    rw [List.find?_eq_none.mpr hex, List.find?_eq_none.mpr hex2]

/-- Splitting a character-list concatenation at a delimiter absent from
both prefixes determines prefix and suffix. -/
theorem append_cons_inj {c : Char} :
    ∀ {a1 : List Char} {a2 b1 b2 : List Char}, c ∉ a1 → c ∉ a2 →
      a1 ++ c :: b1 = a2 ++ c :: b2 → a1 = a2 ∧ b1 = b2 := by
  intro a1
  induction a1 with
  | nil =>
    intro a2 b1 b2 _ h2 h
    cases a2 with
    | nil => simpa using h
    | cons y a2' =>
      simp only [List.nil_append, List.cons_append, List.cons.injEq] at h
      exact (h2 (List.mem_cons.mpr (Or.inl h.1))).elim
  | cons x a1' ih =>
    intro a2 b1 b2 h1 h2 h
    cases a2 with
    | nil =>
      simp only [List.cons_append, List.nil_append, List.cons.injEq] at h
      exact (h1 (List.mem_cons.mpr (Or.inl h.1.symm))).elim
    | cons y a2' =>
      simp only [List.cons_append, List.cons.injEq] at h
      obtain ⟨hxy, h'⟩ := h
      have r := ih (fun hm => h1 (List.mem_cons_of_mem x hm))
        (fun hm => h2 (List.mem_cons_of_mem y hm)) h'
      exact ⟨by rw [hxy, r.1], r.2⟩

/-- The sorted query string is invariant under permutation of the supplied
parameter list (unique keys). -/
theorem sortedQueryString_perm {q1 q2 : List (String × String)} (hperm : q1.Perm q2)
    (hnd : (q1.map (·.1)).Nodup) :
    sortedQueryString q1 = sortedQueryString q2 := by
  have hkeys : List.insertionSort (· ≤ ·) (q1.map (·.1)) =
      List.insertionSort (· ≤ ·) (q2.map (·.1)) := by
    have hs1 : List.Sorted (· ≤ ·) (List.insertionSort (· ≤ ·) (q1.map (·.1))) :=
      List.sorted_insertionSort _ _
    have hs2 : List.Sorted (· ≤ ·) (List.insertionSort (· ≤ ·) (q2.map (·.1))) :=
      List.sorted_insertionSort _ _
    have hpp : (List.insertionSort (· ≤ ·) (q1.map (·.1))).Perm
        (List.insertionSort (· ≤ ·) (q2.map (·.1))) :=
      (List.perm_insertionSort _ _).trans
        ((hperm.map _).trans (List.perm_insertionSort _ _).symm)
    exact List.eq_of_perm_of_sorted hpp hs1 hs2
  have hfun : (fun k => k ++ "=" ++ (((q1.find? (fun p => p.1 == k)).map (·.2)).getD ""))
      = (fun k => k ++ "=" ++ (((q2.find? (fun p => p.1 == k)).map (·.2)).getD "")) := by
    funext k
    rw [find?_key_eq_of_perm hperm hnd k]
  simp only [sortedQueryString, hkeys, hfun]

/-- C6 counterexample.  Two requests with DIFFERENT paths whose raw
pre-hash strings coincide: `GET /a` with query `{"b?c": "1"}` and
`GET /a?b` with query `{"c": "1"}` both produce the raw string
`GET:/a?b?c=1`, hence the same MD5 digest and the same cache key — the
claim that requests differing in path always get different keys is false.
(`path` is `req.originalUrl`, which does contain `?` in practice.) -/
theorem computeCacheKey_path_collision :
    cacheKeyRaw "GET" "/a" [("b?c", "1")] = cacheKeyRaw "GET" "/a?b" [("c", "1")] ∧
    ("/a" : String) ≠ "/a?b" := by
  exact ⟨rfl, by decide⟩

/-- C6 (amended).  The cache key is invariant under the order in which
query parameters are supplied (keys may be listed in any order); and the
raw pre-hash string determines method and path — so distinct methods or
paths give distinct keys up to MD5 collisions — provided the method
contains no `:` and the paths contain no `?` (a `?` inside the path makes
the raw string ambiguous, as the counterexample shows). -/
theorem computeCacheKey_order_invariant_and_raw_inj :
    (∀ (f : String → String) (m p : String) (q1 q2 : List (String × String)),
      q1.Perm q2 → (q1.map (·.1)).Nodup →
      computeCacheKey f m p q1 = computeCacheKey f m p q2) ∧
    (∀ (m1 p1 m2 p2 : String) (q1 q2 : List (String × String)),
      ':' ∉ m1.data → ':' ∉ m2.data → '?' ∉ p1.data → '?' ∉ p2.data →
      cacheKeyRaw m1 p1 q1 = cacheKeyRaw m2 p2 q2 → m1 = m2 ∧ p1 = p2) := by
  constructor
  · intro f m p q1 q2 hperm hnd
    unfold computeCacheKey cacheKeyRaw
    rw [sortedQueryString_perm hperm hnd]
  · intro m1 p1 m2 p2 q1 q2 hm1 hm2 hp1 hp2 h
    have hd := congrArg String.data h
    simp only [cacheKeyRaw, String.data_append, List.append_assoc,
      List.singleton_append, List.cons_append] at hd
    obtain ⟨hm, hrest⟩ := append_cons_inj hm1 hm2 hd
    obtain ⟨hp, -⟩ := append_cons_inj hp1 hp2 hrest
    exact ⟨String.ext hm, String.ext hp⟩

/-- Witness for C6 (amended): `?a=1&b=2` and `?b=2&a=1` give the same key,
and equal raws with clean method/path force equal method and path. -/
theorem computeCacheKey_order_invariant_and_raw_inj_witness :
    computeCacheKey (fun s => s) "GET" "/api/v1/models" [("b", "2"), ("a", "1")] =
      computeCacheKey (fun s => s) "GET" "/api/v1/models" [("a", "1"), ("b", "2")] ∧
    ("GET" : String) = "GET" ∧ ("/api/v1/models" : String) = "/api/v1/models" := by
  constructor
  · exact computeCacheKey_order_invariant_and_raw_inj.1 (fun s => s) "GET" "/api/v1/models"
      [("b", "2"), ("a", "1")] [("a", "1"), ("b", "2")] (by decide) (by decide)
  · exact computeCacheKey_order_invariant_and_raw_inj.2 "GET" "/api/v1/models"
      "GET" "/api/v1/models" [] [] (by decide) (by decide) (by decide) (by decide) rfl

/-! ## `storeResponse` (`cache-plugin.ts`, lines 122-139) and the
`request:completed` subscriber (lines 93-107) -/

structure CachedResponse where
  statusCode : Nat
  headers : List (String × String)
  body : String
  cachedAt : Int
  deriving Repr, DecidableEq

/-- Embedding of `storeResponse`: returns the `(key, value)` pair written
to the store, or `none` when the guard
`!this.config.enabled || method !== 'GET'` returns early.  The stored
value is the response with `cachedAt` stamped to `now` — the response
status code is NOT inspected. -/
def storeResponse (enabled : Bool) (md5hex : String → String) (method path : String)
    (query : List (String × String)) (response : CachedResponse) (now : Int) :
    Option (String × CachedResponse) :=
  if !enabled || !(method == "GET") then none
  else some (computeCacheKey md5hex method path query,
    { response with cachedAt := now })

/-- The guard of the `request:completed` subscriber (line 99):
`if (method !== 'GET' || statusCode !== 200 || cached) return;`.  Returns
whether control proceeds past the guard; the body after it stores nothing
(it is a comment only). -/
def completedSubscriberActs (method : String) (statusCode : Nat) (cached : Bool) :
    Bool :=
  !(!(method == "GET") || !(statusCode == 200) || cached)

/-- C7 counterexample.  `storeResponse` happily writes a cache entry for a
500 response: the status code is never checked on the storage path, so
"for every non-2xx response, no cache entry is stored" is false. -/
theorem storeResponse_stores_non2xx :
    storeResponse true (fun s => s) "GET" "/api/v1/models" []
        { statusCode := 500, headers := [], body := "err", cachedAt := 0 } 1000 =
      some (computeCacheKey (fun s => s) "GET" "/api/v1/models" [],
        { statusCode := 500, headers := [], body := "err", cachedAt := 1000 }) := by
  rfl

/-- C7 (amended).  A write happens via `storeResponse` exactly when caching
is enabled and the method is GET — independently of the status code, which
is stored unchanged; the only status check in the plugin is the
`request:completed` subscriber's guard, which tests `statusCode === 200`
exactly (not the 2xx range) and protects a body that performs no store
write. -/
theorem storeResponse_writes_iff_enabled_get :
    (∀ (enabled : Bool) (f : String → String) (m p : String)
      (q : List (String × String)) (r : CachedResponse) (now : Int),
      (storeResponse enabled f m p q r now).isSome = (enabled && (m == "GET")) ∧
      (storeResponse enabled f m p q r now).map (fun w => w.2.statusCode) =
        if enabled && (m == "GET") then some r.statusCode else none) ∧
    (∀ (sc : Nat) (c : Bool),
      completedSubscriberActs "GET" sc c = ((sc == 200) && !c)) := by
  constructor
  · intro enabled f m p q r now
    by_cases he : enabled = true
    · by_cases hm : (m == "GET") = true
      · simp [storeResponse, he, hm]
      · simp [storeResponse, he, hm]
    · simp [storeResponse, he]
  · intro sc c
    simp [completedSubscriberActs]

/-! ## Request pipeline orchestrator (`server.ts`, the `/api/v1`
middleware, lines 113-151)

The middleware publishes one `gateway:request:incoming` event, then checks
`requestEvent.isCancelled`.  If a handler cancelled the event the
middleware returns at once — before any `res.setHeader` call and before
`next()` hands the request to the proxy middleware.  Otherwise it sets
`X-Request-ID`, `X-Gateway-Version` and, when the rate limiter left a
quota snapshot in the context, the three `X-RateLimit-*` headers, and
calls `next()`.  The publish outcome (cancellation flag and the context's
`rateLimitInfo`) is the input of the embedding; the output records the
headers set by the middleware and whether `next()` was reached. -/

structure RateLimitInfo where
  limit : Nat
  remaining : Nat
  resetAt : Int
  deriving Repr, DecidableEq

structure PipelineOutcome where
  headers : List (String × String)
  forwarded : Bool
  deriving Repr, DecidableEq

/-- Embedding of the `/api/v1` pipeline middleware after the publish. -/
def apiV1Pipeline (requestId : String) (cancelled : Bool)
    (rlInfo : Option RateLimitInfo) : PipelineOutcome :=
  if cancelled then { headers := [], forwarded := false }
  else
    { headers :=
        [("X-Request-ID", requestId), ("X-Gateway-Version", "0.1.0")] ++
          (match rlInfo with
           | some i =>
             [("X-RateLimit-Limit", toString i.limit),
              ("X-RateLimit-Remaining", toString i.remaining),
              ("X-RateLimit-Reset", toString i.resetAt)]
           | none => [])
      forwarded := true }

/-- C8.  Whenever the published `gateway:request:incoming` event comes back
cancelled (auth failure, rate-limit rejection or cache hit), the
orchestrator neither forwards the request to the backend proxy (it returns
before `next()`) nor sets any gateway response header — regardless of the
request id and of whatever quota snapshot the handlers left behind. -/
theorem apiV1Pipeline_cancelled_short_circuits :
    ∀ (requestId : String) (rlInfo : Option RateLimitInfo),
      apiV1Pipeline requestId true rlInfo =
        { headers := [], forwarded := false } := by
  intro requestId rlInfo
  rfl

end Gateway
